import Mathlib

/-!
Verification development for the contact-book data model of `src/main.py`:
a shallow embedding of the `Phone`, `Birthday`, `Record` and `AddressBook`
classes, followed by theorems about the embedded operations.

Conventions.  Python strings are Lean `String`s (Python `len` counts code
points, as does `String.length`).  Fallible operations return
`Except PyErr _`; the program only ever raises `ValueError`, so that is the
sole constructor of `PyErr`.  `Phone` and `Birthday` objects are represented
by their (validated) string value; `Field`/`Name` perform no validation, so a
record name is a plain string.  Character classification is modelled on the
repertoire this development evaluates it on: the ASCII range exactly, plus
the superscript digits for Python `str.isdigit` (see `pyCharIsDigit`).
-/

/-- Python exceptions raised in `src/main.py`.  The source raises only
`ValueError`, carrying a message string. -/
inductive PyErr where
  | valueError (msg : String)
deriving DecidableEq

/-- Decidable equality of fallible results, so that concrete runs of the
embedded operations can be checked by `decide`. -/
instance {ε α : Type} [DecidableEq ε] [DecidableEq α] : DecidableEq (Except ε α) := fun a b =>
  match a, b with
  | .ok x, .ok y => decidable_of_iff (x = y) (by simp)
  | .error e, .error f => decidable_of_iff (e = f) (by simp)
  | .ok _, .error _ => isFalse (by simp)
  | .error _, .ok _ => isFalse (by simp)

/-- The Python exception class name of a raised error. -/
def PyErr.kind : PyErr → String
  | .valueError _ => "ValueError"

/-- The message carried by a raised error. -/
def PyErr.message : PyErr → String
  | .valueError m => m

/-- Python `str.isdigit` on a single character: true for characters whose
Unicode numeric type is Digit or Decimal.  Beyond the ASCII digits, the only
such characters this development ever evaluates it on are the superscript
digits one, two, three (U+00B9, U+00B2, U+00B3), so the table lists exactly
those; CPython accepts further Unicode digit characters, none of which occur
below. -/
def pyCharIsDigit (c : Char) : Bool :=
  c.isDigit || c = '¹' || c = '²' || c = '³'

/-- Python `str.isdigit`: the string is nonempty and every character is a
digit character. -/
def pyStrIsDigit (s : String) : Bool :=
  !s.data.isEmpty && s.data.all pyCharIsDigit

/-- Validation-failure message of `Phone` (src/main.py lines 32 and 38). -/
def phoneValidationMsg : String := "Phone number must contain 10 digits."

/-- `Phone.__init__` (src/main.py lines 29-33): validates
`len(value) != 10 or not value.isdigit()` and stores the value. -/
def Phone.mk? (value : String) : Except PyErr String :=
  if value.length ≠ 10 ∨ ¬ pyStrIsDigit value then
    .error (.valueError phoneValidationMsg)
  else
    .ok value

/-- `Phone.set_value` (src/main.py lines 36-39): same validation as the
constructor; on success the object now holds `new_value`. -/
def Phone.set_value (_self : String) (new_value : String) : Except PyErr String :=
  if new_value.length ≠ 10 ∨ ¬ pyStrIsDigit new_value then
    .error (.valueError phoneValidationMsg)
  else
    .ok new_value

/-- Leap-year test of Python `datetime` (`_is_leap`). -/
def isLeap (y : Nat) : Bool :=
  y % 4 == 0 && (y % 100 != 0 || y % 400 == 0)

/-- One when the year is leap, zero otherwise. -/
def leapBit (y : Nat) : Nat := if isLeap y then 1 else 0

/-- Days in a month, given the leap status of the year (`_days_in_month`). -/
def daysInMonthB (leap : Bool) (m : Nat) : Nat :=
  if m = 2 then (if leap then 29 else 28)
  else if m = 4 ∨ m = 6 ∨ m = 9 ∨ m = 11 then 30
  else 31

/-- Days in month `m` of year `y`. -/
def daysInMonth (y m : Nat) : Nat := daysInMonthB (isLeap y) m

/-- Cumulative days before month `m` (`_DAYS_BEFORE_MONTH`, with the leap-day
adjustment Python applies for months after February). -/
def daysBeforeMonth (leap : Bool) (m : Nat) : Nat :=
  match m with
  | 1 => 0
  | 2 => 31
  | 3 => 59 + (if leap then 1 else 0)
  | 4 => 90 + (if leap then 1 else 0)
  | 5 => 120 + (if leap then 1 else 0)
  | 6 => 151 + (if leap then 1 else 0)
  | 7 => 181 + (if leap then 1 else 0)
  | 8 => 212 + (if leap then 1 else 0)
  | 9 => 243 + (if leap then 1 else 0)
  | 10 => 273 + (if leap then 1 else 0)
  | 11 => 304 + (if leap then 1 else 0)
  | 12 => 334 + (if leap then 1 else 0)
  | _ => 0

/-- Days before January 1 of year `y` (`_days_before_year`).  Python computes
`n*365 + n//4 - n//100 + n//400` over ℤ; the summands are reassociated here so
that truncated ℕ subtraction never clips (`n/4 ≥ n/100`), leaving the value
unchanged. -/
def daysBeforeYear (y : Nat) : Nat :=
  (y - 1) * 365 + ((y - 1) / 4 + (y - 1) / 400 - (y - 1) / 100)

/-- Proleptic-Gregorian ordinal of a date (`date.toordinal`); Python date
subtraction `(d2 - d1).days` is the difference of ordinals. -/
def dateToOrdinal (y m d : Nat) : Nat :=
  daysBeforeYear y + daysBeforeMonth (isLeap y) m + d

/-- Numeric value of an ASCII digit character. -/
def digitVal (c : Char) : Nat := c.toNat - '0'.toNat

/-- Numeric value of a string of ASCII digit characters (most significant
first). -/
def digitsToNat (cs : List Char) : Nat :=
  cs.foldl (fun a c => 10 * a + digitVal c) 0

/-- Day field of `strptime` with format `%Y-%m-%d`: the day regular
expression (`3[01]|[12]\d|0[1-9]|[1-9]`) must consume the whole remainder of
the input (anything left over raises "unconverted data remains"), so the day
is one or two ASCII digits; numeric range checks are performed by the caller
and subsume the ranges of the alternation. -/
def parseDay : List Char → Option Nat
  | [a, b] => if a.isDigit ∧ b.isDigit then some (10 * digitVal a + digitVal b) else none
  | [a] => if a.isDigit then some (digitVal a) else none
  | _ => none

/-- Month and day fields of `strptime %Y-%m-%d` after the year and its
hyphen: the month (regular expression `1[0-2]|0[1-9]|[1-9]`) is one or two
ASCII digits followed by the literal hyphen, then the day.  The alternation
takes a two-digit month exactly when the third character is the hyphen, a
one-digit month exactly when the second is; numeric range checks are
performed by the caller and subsume the ranges of the alternation. -/
def parseMonthDay (cs : List Char) : Option (Nat × Nat) :=
  match cs with
  | a :: b :: c :: rest =>
    if a.isDigit ∧ b.isDigit ∧ c = '-' then
      (parseDay rest).map (fun d => (10 * digitVal a + digitVal b, d))
    else if a.isDigit ∧ b = '-' then
      (parseDay (c :: rest)).map (fun d => (digitVal a, d))
    else none
  | _ => none

/-- `datetime.strptime(value, "%Y-%m-%d")`: exactly four ASCII digits of year
(`\d\d\d\d`), a hyphen, then month and day as above, consuming the whole
string; then the `datetime` field checks (year 1..9999 — four digits cap it
at 9999 — month 1..12, day within the month).  CPython's `\d` also matches
non-ASCII Unicode decimal digits; those are outside this model's repertoire.
Returns the parsed (year, month, day). -/
def parseYMD (cs : List Char) : Option (Nat × Nat × Nat) :=
  match cs with
  | y1 :: y2 :: y3 :: y4 :: h :: rest =>
    if y1.isDigit ∧ y2.isDigit ∧ y3.isDigit ∧ y4.isDigit ∧ h = '-' then
      match parseMonthDay rest with
      | some (m, d) =>
        if 1 ≤ 1000 * digitVal y1 + 100 * digitVal y2 + 10 * digitVal y3 + digitVal y4 ∧
            1 ≤ m ∧ m ≤ 12 ∧ 1 ≤ d ∧
            d ≤ daysInMonth (1000 * digitVal y1 + 100 * digitVal y2 + 10 * digitVal y3 + digitVal y4) m then
          some (1000 * digitVal y1 + 100 * digitVal y2 + 10 * digitVal y3 + digitVal y4, m, d)
        else none
      | none => none
    else none
  | _ => none

/-- The calendar-date strings accepted by `strptime %Y-%m-%d`, stated
declaratively: exactly four ASCII digits of year, a hyphen, one or two digits
of month, a hyphen, one or two digits of day, nothing else; the year is at
least 1, the month between 1 and 12, and the day at least 1 and within the
month (zero-padding of month and day is optional). -/
def ValidYMD (cs : List Char) : Prop :=
  ∃ ys ms ds : List Char,
    cs = ys ++ '-' :: (ms ++ '-' :: ds) ∧
    ys.length = 4 ∧ (∀ c ∈ ys, c.isDigit = true) ∧
    (ms.length = 1 ∨ ms.length = 2) ∧ (∀ c ∈ ms, c.isDigit = true) ∧
    (ds.length = 1 ∨ ds.length = 2) ∧ (∀ c ∈ ds, c.isDigit = true) ∧
    1 ≤ digitsToNat ys ∧
    1 ≤ digitsToNat ms ∧ digitsToNat ms ≤ 12 ∧
    1 ≤ digitsToNat ds ∧ digitsToNat ds ≤ daysInMonth (digitsToNat ys) (digitsToNat ms)

/-- Failure message of `Birthday.__init__` (src/main.py line 47): note it
says "data", not "date". -/
def ctorDateMsg : String := "Incorrect data format, should be YYYY-MM-DD"

/-- Failure message of the `Birthday.value` setter (src/main.py line 59). -/
def setterDateMsg : String := "Incorrect date format, should be YYYY-MM-DD"

/-- `Birthday.__init__` (src/main.py lines 43-48): `strptime` the value,
re-raising any `ValueError` with the constructor's message; on success the
original string is stored (the property setter re-validates the same value
and cannot fail). -/
def Birthday.mk? (value : String) : Except PyErr String :=
  match parseYMD value.data with
  | some _ => .ok value
  | none => .error (.valueError ctorDateMsg)

/-- `Birthday.value` setter (src/main.py lines 54-60): same validation with
the setter's message. -/
def Birthday.set_value (_self : String) (new_value : String) : Except PyErr String :=
  match parseYMD new_value.data with
  | some _ => .ok new_value
  | none => .error (.valueError setterDateMsg)

/-- One contact (`Record`, src/main.py lines 64-118).  The `Name` field
performs no validation, so the name is a plain string; `phones` holds the
values of the `Phone` fields in insertion order; `birthday` the value of the
optional `Birthday` field. -/
structure Record where
  name : String
  phones : List String
  birthday : Option String
deriving DecidableEq

/-- `Record.__init__` (src/main.py lines 65-68):
`self.birthday = Birthday(birthday) if birthday else None` — Python
truthiness treats both `None` and the empty string as absent; a failing
`Birthday` construction propagates and the record is not created. -/
def Record.mk? (name : String) (birthday : Option String) : Except PyErr Record :=
  match birthday with
  | some b =>
    if b ≠ "" then
      match Birthday.mk? b with
      | .ok v => .ok ⟨name, [], some v⟩
      | .error e => .error e
    else .ok ⟨name, [], none⟩
  | none => .ok ⟨name, [], none⟩

/-- `Record.add_phone` (src/main.py lines 71-73): validate, then append. -/
def Record.add_phone (r : Record) (phone : String) : Except PyErr Record :=
  match Phone.mk? phone with
  | .ok p => .ok { r with phones := r.phones ++ [p] }
  | .error e => .error e

/-- Removal of the first occurrence, mirroring the loop of `remove_phone`
(scan for the first phone whose string equals the target, drop it, break). -/
def eraseFirst : List String → String → List String
  | [], _ => []
  | p :: ps, t => if p = t then ps else p :: eraseFirst ps t

/-- `Record.remove_phone` (src/main.py lines 76-80): silent no-op when the
value is absent. -/
def Record.remove_phone (r : Record) (phone : String) : Record :=
  { r with phones := eraseFirst r.phones phone }

/-- A single-quote character as a string (U+0027), used in the not-found
message below. -/
def quoteStr : String := String.singleton (Char.ofNat 39)

/-- Not-found message of `edit_phone` (src/main.py line 92), with the old
value interpolated between single quotes. -/
def notFoundMsg (old_phone : String) : String :=
  "Phone number " ++ quoteStr ++ old_phone ++ quoteStr ++ " does not exist in this record."

/-- The scanning loop of `edit_phone`: on the first phone equal to
`old_phone`, `set_value` validates and replaces in place (breaking the loop);
a validation failure propagates before any mutation; if the scan finds no
match the not-found `ValueError` is raised. -/
def editLoop : List String → String → String → Except PyErr (List String)
  | [], old_phone, _ => .error (.valueError (notFoundMsg old_phone))
  | p :: ps, old_phone, new_phone =>
    if p = old_phone then
      match Phone.set_value p new_phone with
      | .ok v => .ok (v :: ps)
      | .error e => .error e
    else
      match editLoop ps old_phone new_phone with
      | .ok l => .ok (p :: l)
      | .error e => .error e

/-- `Record.edit_phone` (src/main.py lines 83-92). -/
def Record.edit_phone (r : Record) (old_phone new_phone : String) : Except PyErr Record :=
  match editLoop r.phones old_phone new_phone with
  | .ok l => .ok { r with phones := l }
  | .error e => .error e

/-- The target year picked by `days_to_birthday`:
`(today.month, today.day) > (birthday.month, birthday.day)` (lexicographic
tuple comparison) bumps to next year; equality counts as not past. -/
def nextBirthdayYear (ty tm td bm bd : Nat) : Nat :=
  if bm < tm ∨ (bm = tm ∧ bd < td) then ty + 1 else ty

/-- `Record.days_to_birthday` (src/main.py lines 101-114), with today's date
passed explicitly in place of `datetime.now()`.  `strptime` re-parses the
stored value (it cannot fail for a birthday the validated constructor
produced; the message on that unreachable branch abbreviates CPython's).
`birthday_date.replace(year=...)` re-checks the date fields in order — year
range first, then day within month — and an out-of-range field raises
`ValueError` out of the method (the Feb 29 case).  On success the result is
the ordinal difference of the two dates. -/
def Record.days_to_birthday (r : Record) (ty tm td : Nat) : Except PyErr (Option Int) :=
  match r.birthday with
  | none => .ok none
  | some b =>
    match parseYMD b.data with
    | none => .error (.valueError "time data does not match format")
    | some (_, bm, bd) =>
      if 9999 < nextBirthdayYear ty tm td bm bd then
        .error (.valueError ("year " ++ toString (nextBirthdayYear ty tm td bm bd) ++ " is out of range"))
      else if daysInMonth (nextBirthdayYear ty tm td bm bd) bm < bd then
        .error (.valueError "day is out of range for month")
      else
        .ok (some ((dateToOrdinal (nextBirthdayYear ty tm td bm bd) bm bd : Int) -
          (dateToOrdinal ty tm td : Int)))

/-- The address book (`AddressBook`, src/main.py lines 121-167): a mapping
from name to record.  Python 3 dicts preserve insertion order and keep the
original position when a key is overwritten, so the mapping is modelled as an
association list in iteration order. -/
structure AddressBook where
  data : List (String × Record)
deriving DecidableEq

/-- `list(self.data.values())`: the records in iteration order. -/
def AddressBook.records (b : AddressBook) : List Record := b.data.map (fun kv => kv.2)

/-- The chunking loop of `AddressBook.__iter__` (src/main.py lines 137-143):
`while current < len(records): yield records[current : current + chunk_size]`,
advancing `current` by `chunk_size`.  With a positive chunk size the loop
executes at most `len(records)` iterations, so it is modelled with that
iteration bound as structural fuel; each iteration yields the prefix of the
remainder (`records[current:current+k]`) and continues on the rest.  With
`chunk_size = 0` Python never advances (yielding empty slices forever); that
divergent case is outside the claims, which require a positive chunk size,
and is modelled as producing no chunks. -/
def chunkLoop : Nat → List Record → Nat → List (List Record)
  | _, [], _ => []
  | 0, _ :: _, _ => []
  | fuel + 1, a :: l, k =>
    if k = 0 then []
    else (a :: l).take k :: chunkLoop fuel ((a :: l).drop k) k

/-- The chunks of a record list: the loop above, with enough fuel. -/
def chunkList (l : List Record) (k : Nat) : List (List Record) :=
  chunkLoop l.length l k

/-- `AddressBook.__iter__` with an explicit `chunk_size` argument (the
generator defaults it to 5). -/
def AddressBook.iterChunks (b : AddressBook) (chunk_size : Nat) : List (List Record) :=
  chunkList b.records chunk_size

/-- Python `str.lower`, per character; `Char.toLower` lowers the ASCII range,
which covers every string this development applies it to (CPython also lowers
non-ASCII cased letters). -/
def pyLower (s : String) : String := ⟨s.data.map Char.toLower⟩

/-- Whether the first list is a prefix of the second. -/
def startsWithChars : List Char → List Char → Bool
  | [], _ => true
  | _ :: _, [] => false
  | a :: as, b :: bs => a == b && startsWithChars as bs

/-- Python substring containment `needle in hay` on character lists. -/
def subChars (needle : List Char) : List Char → Bool
  | [] => needle.isEmpty
  | c :: rest => startsWithChars needle (c :: rest) || subChars needle rest

/-- Python `needle in hay` on strings. -/
def pyIn (needle hay : String) : Bool := subChars needle.data hay.data

/-- The inner loop of `AddressBook.search` over a record's phones: append the
record on the first phone containing `value` and break. -/
def searchPhonesLoop (value : String) (record : Record) (results : List Record) :
    List String → List Record
  | [] => results
  | ph :: rest =>
    if pyIn value ph then results ++ [record]
    else searchPhonesLoop value record results rest

/-- The outer loop of `AddressBook.search` (src/main.py lines 156-167):
per record, append on a case-insensitive name match, then run the phone
loop on the possibly-extended results. -/
def searchLoop (value : String) (results : List Record) :
    List (String × Record) → List Record
  | [] => results
  | kv :: rest =>
    searchLoop value
      (searchPhonesLoop value kv.2
        (if pyIn (pyLower value) (pyLower kv.2.name) then results ++ [kv.2] else results)
        kv.2.phones)
      rest

/-- `AddressBook.search` (src/main.py lines 156-167). -/
def AddressBook.search (b : AddressBook) (value : String) : List Record :=
  searchLoop value [] b.data

/-- Specification-side predicate: the term is a case-insensitive substring of
the record's name. -/
def nameMatches (value : String) (r : Record) : Bool :=
  pyIn (pyLower value) (pyLower r.name)

/-- Specification-side predicate: the term is a case-sensitive substring of
at least one phone value. -/
def phoneMatches (value : String) (r : Record) : Bool :=
  r.phones.any (fun ph => pyIn value ph)

/-- The copies of a record that one iteration of the search loop appends:
one for a name match, one more for a phone match. -/
def recordHits (value : String) (r : Record) : List Record :=
  (if nameMatches value r then [r] else []) ++ (if phoneMatches value r then [r] else [])

/-- A pickled Python value, as far as this program's data reaches: strings,
`None`, and (nested) lists of such — enough structure to serialize the
name→Record mapping self-describingly, as `pickle` does. -/
inductive PVal where
  | pstr (s : String)
  | pnone
  | plist (l : List PVal)

/-- Serialization of one record: name, phone list, optional birthday. -/
def encodeRecord (r : Record) : PVal :=
  .plist [.pstr r.name, .plist (r.phones.map PVal.pstr),
    match r.birthday with
    | some b => .pstr b
    | none => .pnone]

/-- Deserialization of a phone list. -/
def decodePhones : List PVal → Option (List String)
  | [] => some []
  | .pstr s :: rest => (decodePhones rest).map (fun l => s :: l)
  | _ => none

/-- Deserialization of one record. -/
def decodeRecord : PVal → Option Record
  | .plist [.pstr n, .plist ps, bd] =>
    match decodePhones ps, bd with
    | some phones, .pstr b => some ⟨n, phones, some b⟩
    | some phones, .pnone => some ⟨n, phones, none⟩
    | _, _ => none
  | _ => none

/-- Serialization of the name→Record entries. -/
def encodeEntries (l : List (String × Record)) : List PVal :=
  l.map (fun kv => .plist [.pstr kv.1, encodeRecord kv.2])

/-- Deserialization of the name→Record entries; malformed data fails. -/
def decodeEntryList : List PVal → Option (List (String × Record))
  | [] => some []
  | .plist [.pstr k, rv] :: rest =>
    match decodeRecord rv, decodeEntryList rest with
    | some r, some l => some ((k, r) :: l)
    | _, _ => none
  | _ => none

/-- `AddressBook.save_to_file` (src/main.py lines 146-148):
`pickle.dump(self.data, fh)` writes a serialization of the whole mapping;
the file contents are modelled as the structured value written. -/
def AddressBook.save_to_file (b : AddressBook) : PVal :=
  .plist (encodeEntries b.data)

/-- `AddressBook.load_from_file` (src/main.py lines 151-153):
`self.data = pickle.load(fh)` replaces the mapping wholesale with the
deserialized contents; deserialization of malformed contents fails. -/
def AddressBook.load_from_file (_self : AddressBook) (file : PVal) : Option AddressBook :=
  match file with
  | .plist l => (decodeEntryList l).map (fun d => ⟨d⟩)
  | _ => none

/-- Invariant of a record's phone list: every element passes the `Phone`
validation of the source (length exactly ten and `str.isdigit`). -/
def Record.PhonesWF (r : Record) : Prop :=
  ∀ p ∈ r.phones, p.length = 10 ∧ pyStrIsDigit p = true

/-- A five-record book used to instantiate the chunked-iteration theorem. -/
def book5 : AddressBook :=
  ⟨[("A", ⟨"A", [], none⟩), ("B", ⟨"B", [], none⟩), ("C", ⟨"C", [], none⟩),
    ("D", ⟨"D", [], none⟩), ("E", ⟨"E", [], none⟩)]⟩

/-- A record whose name and phone both contain "123", used to exhibit the
double append of `search`. -/
def rec123 : Record := ⟨"a123", ["0123456789"], none⟩

/-!  Helper lemmas about the embedded operations. -/

/-- The test of `Phone.__init__`, negated, says exactly: length ten and all
characters digits (nonemptiness of `str.isdigit` is subsumed by the length). -/
theorem phone_check_iff (p : String) :
    ¬ (p.length ≠ 10 ∨ ¬ pyStrIsDigit p) ↔
      (p.length = 10 ∧ ∀ c ∈ p.data, pyCharIsDigit c = true) := by
  have hlen : p.length = p.data.length := rfl
  constructor
  · intro h
    push_neg at h
    obtain ⟨h1, h2⟩ := h
    refine ⟨h1, ?_⟩
    simp only [pyStrIsDigit, Bool.and_eq_true, List.all_eq_true] at h2
    exact h2.2
  · rintro ⟨h1, h2⟩
    push_neg
    refine ⟨h1, ?_⟩
    simp only [pyStrIsDigit, Bool.and_eq_true, List.all_eq_true]
    refine ⟨?_, h2⟩
    cases hd : p.data with
    | nil =>
      rw [hlen, hd] at h1
      simp at h1
    | cons c cs => simp

/-- `set_value` performs the same validation as the constructor and stores
the new value, so as functions of the new value they agree. -/
theorem phone_set_value_eq_mk (s nv : String) : Phone.set_value s nv = Phone.mk? nv := rfl

/-- A successful `Phone` construction returns the input, which passed the
validation test. -/
theorem phone_mk_ok {p v : String} (h : Phone.mk? p = .ok v) :
    v = p ∧ p.length = 10 ∧ pyStrIsDigit p = true := by
  unfold Phone.mk? at h
  split at h
  · exact absurd h (by simp)
  · next hc =>
    push_neg at hc
    exact ⟨(Except.ok.inj h).symm, hc.1, by simpa using hc.2⟩

/-- Erasing an element only removes elements: membership is preserved
backwards. -/
theorem mem_eraseFirst {x t : String} {l : List String} (h : x ∈ eraseFirst l t) : x ∈ l := by
  induction l with
  | nil => simp [eraseFirst] at h
  | cons p ps ih =>
    unfold eraseFirst at h
    split at h
    · exact List.mem_cons_of_mem p h
    · rcases List.mem_cons.mp h with h1 | h1
      · exact h1 ▸ List.mem_cons_self p ps
      · exact List.mem_cons_of_mem p (ih h1)

/-- When the target is absent, the edit loop falls through to the not-found
error. -/
theorem editLoop_notFound {l : List String} {old nv : String} (h : old ∉ l) :
    editLoop l old nv = .error (.valueError (notFoundMsg old)) := by
  induction l with
  | nil => rfl
  | cons p ps ih =>
    have hne : p ≠ old := fun he => h (he ▸ List.mem_cons_self p ps)
    have hnm : old ∉ ps := fun hm => h (List.mem_cons_of_mem p hm)
    simp only [editLoop, if_neg hne, ih hnm]

/-- When the target occurs first at index `i`, the edit loop validates the
new value there: on success it replaces in place, on failure it propagates
the validation error. -/
theorem editLoop_found {l : List String} {old nv : String} {i : Nat}
    (hi : i < l.length) (hget : l.get ⟨i, hi⟩ = old) (hfirst : old ∉ l.take i) :
    editLoop l old nv =
      match Phone.mk? nv with
      | .ok v => .ok (l.set i v)
      | .error e => .error e := by
  induction l generalizing i with
  | nil => exact absurd hi (by simp)
  | cons p ps ih =>
    cases i with
    | zero =>
      simp only [List.get] at hget
      subst hget
      simp only [editLoop, if_pos rfl, phone_set_value_eq_mk]
      cases Phone.mk? nv <;> rfl
    | succ j =>
      have hj : j < ps.length := by simpa using hi
      have hg : ps.get ⟨j, hj⟩ = old := hget
      have hsplit : p ≠ old ∧ old ∉ ps.take j := by
        constructor
        · intro he
          exact hfirst (by simp [List.take_succ_cons, he])
        · intro hm
          exact hfirst (by simp [List.take_succ_cons, hm])
      have := ih hj hg hsplit.2
      simp only [editLoop, if_neg hsplit.1, this]
      cases Phone.mk? nv <;> simp [List.set]

/-- When the target is present anywhere and the new value fails validation,
the edit loop raises the validation error. -/
theorem editLoop_badNew {l : List String} {old nv : String} (hmem : old ∈ l)
    (hbad : ¬ (nv.length = 10 ∧ ∀ c ∈ nv.data, pyCharIsDigit c = true)) :
    editLoop l old nv = .error (.valueError phoneValidationMsg) := by
  have hcond : nv.length ≠ 10 ∨ ¬ pyStrIsDigit nv := by
    by_contra hc
    exact hbad ((phone_check_iff nv).mp hc)
  have hmk : Phone.mk? nv = .error (.valueError phoneValidationMsg) := by
    unfold Phone.mk?
    rw [if_pos hcond]
  induction l with
  | nil => exact absurd hmem (by simp)
  | cons p ps ih =>
    by_cases hpe : p = old
    · simp only [editLoop, if_pos hpe, phone_set_value_eq_mk, hmk]
    · have : old ∈ ps := by
        rcases List.mem_cons.mp hmem with h1 | h1
        · exact absurd h1.symm hpe
        · exact h1
      simp only [editLoop, if_neg hpe, ih this]

/-- Every element of a successful edit's result is an old element or the
validated new value. -/
theorem editLoop_mem {l l2 : List String} {old nv : String}
    (h : editLoop l old nv = .ok l2) :
    ∀ x ∈ l2, x ∈ l ∨ (x = nv ∧ nv.length = 10 ∧ pyStrIsDigit nv = true) := by
  induction l generalizing l2 with
  | nil => exact absurd h (by simp [editLoop])
  | cons p ps ih =>
    intro x hx
    by_cases hpe : p = old
    · simp only [editLoop, if_pos hpe, phone_set_value_eq_mk] at h
      cases hmk : Phone.mk? nv with
      | ok v =>
        rw [hmk] at h
        obtain ⟨hv, hlen, hdig⟩ := phone_mk_ok hmk
        have hl2 : l2 = v :: ps := (Except.ok.inj h).symm
        subst hl2
        rcases List.mem_cons.mp hx with h1 | h1
        · exact Or.inr ⟨h1.trans hv, hv ▸ hlen, hv ▸ hdig⟩
        · exact Or.inl (List.mem_cons_of_mem p h1)
      | error e =>
        rw [hmk] at h
        exact absurd h (by simp)
    · simp only [editLoop, if_neg hpe] at h
      cases hrec : editLoop ps old nv with
      | ok l3 =>
        rw [hrec] at h
        have hl2 : l2 = p :: l3 := (Except.ok.inj h).symm
        subst hl2
        rcases List.mem_cons.mp hx with h1 | h1
        · exact Or.inl (h1 ▸ List.mem_cons_self p ps)
        · rcases ih hrec x h1 with h2 | h2
          · exact Or.inl (List.mem_cons_of_mem p h2)
          · exact Or.inr h2
      | error e =>
        rw [hrec] at h
        exact absurd h (by simp)

/-- The two `edit_phone` failure messages differ for every old value: the
fourteenth character of the validation message is an `m`, of the not-found
message the opening single quote. -/
theorem phone_msgs_distinct (old : String) : phoneValidationMsg ≠ notFoundMsg old := by
  intro h
  have h13 : phoneValidationMsg.data.get? 13 = (notFoundMsg old).data.get? 13 := by rw [h]
  have hL : phoneValidationMsg.data.get? 13 = some 'm' := rfl
  have hR : (notFoundMsg old).data.get? 13 = some (Char.ofNat 39) := rfl
  rw [hL, hR] at h13
  exact absurd (Option.some.inj h13) (by decide)

/-!  Claim C2: Phone validation. -/

/-- Claim C2, amended: for every string `p`, constructing a `Phone` with `p`
(and reassigning an existing `Phone` to `p` via `set_value`) succeeds iff `p`
has length exactly 10 and every character of `p` is a digit in the sense of
Python `str.isdigit` — which accepts, beyond the decimal digits 0–9, further
Unicode digit characters such as the superscript two; otherwise it fails with
a `ValueError` carrying the message "Phone number must contain 10 digits.". -/
theorem phone_validation_spec (p q : String) :
    (Phone.mk? p = .ok p ↔ (p.length = 10 ∧ ∀ c ∈ p.data, pyCharIsDigit c = true)) ∧
    (¬ (p.length = 10 ∧ ∀ c ∈ p.data, pyCharIsDigit c = true) →
      Phone.mk? p = .error (.valueError phoneValidationMsg)) ∧
    (Phone.set_value q p = .ok p ↔ (p.length = 10 ∧ ∀ c ∈ p.data, pyCharIsDigit c = true)) ∧
    (¬ (p.length = 10 ∧ ∀ c ∈ p.data, pyCharIsDigit c = true) →
      Phone.set_value q p = .error (.valueError phoneValidationMsg)) := by
  have hmk : (Phone.mk? p = .ok p ↔ (p.length = 10 ∧ ∀ c ∈ p.data, pyCharIsDigit c = true)) := by
    constructor
    · intro h
      obtain ⟨-, h1, h2⟩ := phone_mk_ok h
      refine ⟨h1, ?_⟩
      simp only [pyStrIsDigit, Bool.and_eq_true, List.all_eq_true] at h2
      exact h2.2
    · intro h
      unfold Phone.mk?
      rw [if_neg ((phone_check_iff p).mpr h)]
  have herr : ¬ (p.length = 10 ∧ ∀ c ∈ p.data, pyCharIsDigit c = true) →
      Phone.mk? p = .error (.valueError phoneValidationMsg) := by
    intro h
    unfold Phone.mk?
    rw [if_pos]
    by_contra hc
    exact h ((phone_check_iff p).mp hc)
  exact ⟨hmk, herr, by rw [phone_set_value_eq_mk]; exact hmk,
    fun h => by rw [phone_set_value_eq_mk]; exact herr h⟩

/-- Witness for C2 at concrete inputs: a valid ten-digit string is accepted,
an invalid one rejected with the stated message. -/
theorem phone_validation_spec_witness :
    Phone.mk? "0123456789" = .ok "0123456789" ∧
    Phone.mk? "01234x6789" = .error (.valueError phoneValidationMsg) :=
  ⟨(phone_validation_spec "0123456789" "").1.mpr (by decide),
   (phone_validation_spec "01234x6789" "").2.1 (by decide)⟩

/-- Counterexample to C2 as stated: the string of ten superscript-two
characters has length 10 and is accepted by the constructor (Python
`str.isdigit` is true of it), yet none of its characters is a decimal digit
0–9. -/
theorem phone_unicode_digit_cex :
    Phone.mk? "²²²²²²²²²²" = .ok "²²²²²²²²²²" ∧
    ¬ (∀ c ∈ "²²²²²²²²²²".data, ('0' ≤ c ∧ c ≤ '9')) := by
  exact ⟨by decide, by decide⟩

/-!  Claim C10: empty-string birthday. -/

/-- Claim C10: constructing a Record with the empty string as the birthday
argument succeeds and produces a record with no birthday set — Python
truthiness treats the empty string like an absent birthday — and
`days_to_birthday` on such a record returns `None` for every current date. -/
theorem record_empty_birthday_spec (name : String) (ty tm td : Nat) :
    Record.mk? name (some "") = .ok ⟨name, [], none⟩ ∧
    Record.days_to_birthday ⟨name, [], none⟩ ty tm td = .ok none :=
  ⟨rfl, rfl⟩

/-!  Claim C3: edit_phone. -/

/-- Claim C3: when `old` first occurs at index `i` of the record's phones,
`edit_phone old nv` replaces the phone at index `i` by `nv` — preserving its
position and all other phones — iff `nv` passes the Phone rule; if `nv` is
invalid the call fails with the validation `ValueError` and the phone list is
unchanged (no record is produced); and if `old` matches no current phone the
call fails with the not-found error whose message embeds the old value. -/
theorem edit_phone_spec (r : Record) (old nv : String) (i : Nat)
    (hi : i < r.phones.length)
    (hget : r.phones.get ⟨i, hi⟩ = old)
    (hfirst : old ∉ r.phones.take i) :
    ((nv.length = 10 ∧ ∀ c ∈ nv.data, pyCharIsDigit c = true) →
      r.edit_phone old nv = .ok { r with phones := r.phones.set i nv }) ∧
    (¬ (nv.length = 10 ∧ ∀ c ∈ nv.data, pyCharIsDigit c = true) →
      r.edit_phone old nv = .error (.valueError phoneValidationMsg)) ∧
    (∀ r2 : Record, ∀ t u : String, t ∉ r2.phones →
      r2.edit_phone t u = .error (.valueError (notFoundMsg t))) := by
  refine ⟨?_, ?_, ?_⟩
  · intro hok
    have hmk : Phone.mk? nv = .ok nv := by
      unfold Phone.mk?
      rw [if_neg ((phone_check_iff nv).mpr hok)]
    unfold Record.edit_phone
    rw [editLoop_found hi hget hfirst, hmk]
  · intro hbad
    unfold Record.edit_phone
    have hmem : old ∈ r.phones := hget ▸ List.get_mem r.phones i hi
    rw [editLoop_badNew hmem hbad]
  · intro r2 t u hnot
    unfold Record.edit_phone
    rw [editLoop_notFound hnot]

/-- Witness for C3 at a concrete record: the second of two phones is replaced
in place on a valid new value; an invalid new value yields the validation
error; a missing old value yields the not-found error. -/
theorem edit_phone_spec_witness :
    Record.edit_phone ⟨"A", ["1111111111", "2222222222"], none⟩ "2222222222" "3333333333"
        = .ok ⟨"A", ["1111111111", "3333333333"], none⟩ ∧
    Record.edit_phone ⟨"A", ["1111111111", "2222222222"], none⟩ "2222222222" "33"
        = .error (.valueError phoneValidationMsg) ∧
    Record.edit_phone ⟨"A", ["1111111111"], none⟩ "4444444444" "3333333333"
        = .error (.valueError (notFoundMsg "4444444444")) := by
  have h := edit_phone_spec ⟨"A", ["1111111111", "2222222222"], none⟩ "2222222222" "3333333333"
    1 (by decide) (by decide) (by decide)
  have h2 := edit_phone_spec ⟨"A", ["1111111111", "2222222222"], none⟩ "2222222222" "33"
    1 (by decide) (by decide) (by decide)
  exact ⟨h.1 (by decide), h2.2.1 (by decide),
    h.2.2 ⟨"A", ["1111111111"], none⟩ "4444444444" "3333333333" (by decide)⟩

/-!  Claim C7: the two edit_phone failures. -/

/-- Claim C7, amended: the failure raised by `edit_phone` for an invalid new
value and the failure raised when the old value is absent are NOT distinct
error kinds — the source raises plain `ValueError` in both cases — but they
are distinguishable by message: the validation message versus the not-found
message, which differ for every old value. -/
theorem edit_phone_error_kinds_spec (r r2 : Record) (old nv t u : String)
    (hmem : old ∈ r.phones) (hbad : ¬ (nv.length = 10 ∧ ∀ c ∈ nv.data, pyCharIsDigit c = true))
    (hnot : t ∉ r2.phones) :
    r.edit_phone old nv = .error (.valueError phoneValidationMsg) ∧
    r2.edit_phone t u = .error (.valueError (notFoundMsg t)) ∧
    (PyErr.valueError phoneValidationMsg).kind = (PyErr.valueError (notFoundMsg t)).kind ∧
    (PyErr.valueError phoneValidationMsg).message ≠ (PyErr.valueError (notFoundMsg t)).message := by
  refine ⟨?_, ?_, rfl, ?_⟩
  · unfold Record.edit_phone
    rw [editLoop_badNew hmem hbad]
  · unfold Record.edit_phone
    rw [editLoop_notFound hnot]
  · exact phone_msgs_distinct t

/-- Witness for C7 at concrete records and values. -/
theorem edit_phone_error_kinds_spec_witness :
    Record.edit_phone ⟨"A", ["0123456789"], none⟩ "0123456789" "12"
        = .error (.valueError phoneValidationMsg) ∧
    Record.edit_phone ⟨"B", ["5555555555"], none⟩ "7777777777" "0000000000"
        = .error (.valueError (notFoundMsg "7777777777")) ∧
    (PyErr.valueError phoneValidationMsg).kind
        = (PyErr.valueError (notFoundMsg "7777777777")).kind ∧
    (PyErr.valueError phoneValidationMsg).message
        ≠ (PyErr.valueError (notFoundMsg "7777777777")).message :=
  edit_phone_error_kinds_spec ⟨"A", ["0123456789"], none⟩ ⟨"B", ["5555555555"], none⟩
    "0123456789" "12" "7777777777" "0000000000" (by decide) (by decide) (by decide)

/-- Counterexample to C7 as stated: at concrete inputs, the invalid-new-value
failure and the old-value-not-found failure carry the same Python exception
kind, `ValueError` — they are not distinguishable as error kinds. -/
theorem edit_phone_same_kind_cex :
    Record.edit_phone ⟨"C", ["0123456789"], none⟩ "0123456789" "99"
        = .error (.valueError phoneValidationMsg) ∧
    Record.edit_phone ⟨"C", ["0123456789"], none⟩ "9999999999" "0000000000"
        = .error (.valueError (notFoundMsg "9999999999")) ∧
    PyErr.kind (.valueError phoneValidationMsg)
        = PyErr.kind (.valueError (notFoundMsg "9999999999")) :=
  ⟨by decide, by decide, rfl⟩

/-!  Claim C8: the phones invariant. -/

/-- Claim C8, amended: every element of a record's phone list passes the
source's Phone validation — length exactly 10 and Python `str.isdigit`
(which accepts some non-0–9 Unicode digit characters) — after construction,
and the invariant is preserved by `add_phone`, `remove_phone` and
`edit_phone` (a failing operation produces no record at all, leaving the
original untouched). -/
theorem phones_invariant_spec :
    (∀ name b r0, Record.mk? name b = .ok r0 → r0.PhonesWF) ∧
    (∀ (r : Record) p r2, r.PhonesWF → r.add_phone p = .ok r2 → r2.PhonesWF) ∧
    (∀ (r : Record) p, r.PhonesWF → (r.remove_phone p).PhonesWF) ∧
    (∀ (r : Record) old nv r2, r.PhonesWF → r.edit_phone old nv = .ok r2 → r2.PhonesWF) := by
  refine ⟨?_, ?_, ?_, ?_⟩
  · intro name b r0 h
    have hphones : r0.phones = [] := by
      cases b with
      | none =>
        simp only [Record.mk?] at h
        cases h; rfl
      | some s =>
        simp only [Record.mk?] at h
        split at h
        · cases hb : Birthday.mk? s with
          | ok v => rw [hb] at h; cases h; rfl
          | error e => rw [hb] at h; cases h
        · cases h; rfl
    intro p hp
    rw [hphones] at hp
    cases hp
  · intro r p r2 hwf h
    unfold Record.add_phone at h
    cases hmk : Phone.mk? p with
    | ok v =>
      rw [hmk] at h
      obtain ⟨hv, hlen, hdig⟩ := phone_mk_ok hmk
      cases h
      intro x hx
      rcases List.mem_append.mp hx with h1 | h1
      · exact hwf x h1
      · have : x = v := by simpa using h1
        subst this
        exact ⟨hv ▸ hlen, hv ▸ hdig⟩
    | error e => rw [hmk] at h; cases h
  · intro r p hwf x hx
    exact hwf x (mem_eraseFirst hx)
  · intro r old nv r2 hwf h
    unfold Record.edit_phone at h
    cases hl : editLoop r.phones old nv with
    | ok l2 =>
      rw [hl] at h
      cases h
      intro x hx
      rcases editLoop_mem hl x hx with h1 | h1
      · exact hwf x h1
      · exact ⟨h1.1 ▸ h1.2.1, h1.1 ▸ h1.2.2⟩
    | error e => rw [hl] at h; cases h

/-- Witness for C8: the invariant holds of a concretely constructed and
extended record. -/
theorem phones_invariant_spec_witness :
    Record.PhonesWF ⟨"A", ["0123456789"], none⟩ :=
  phones_invariant_spec.2.1 ⟨"A", [], none⟩ "0123456789" ⟨"A", ["0123456789"], none⟩
    (by intro p hp; cases hp) (by decide)

/-- Counterexample to C8 as stated: adding the all-superscript-two string
succeeds (it passes the source's validation), after which the phone list
contains an element none of whose characters is a decimal digit 0–9. -/
theorem phones_invariant_unicode_cex :
    Record.add_phone ⟨"A", [], none⟩ "²²²²²²²²²²"
        = .ok ⟨"A", ["²²²²²²²²²²"], none⟩ ∧
    ¬ (∀ p ∈ (Record.phones ⟨"A", ["²²²²²²²²²²"], none⟩), ∀ c ∈ p.data, ('0' ≤ c ∧ c ≤ '9')) :=
  ⟨by decide, by decide⟩

/-!  Claim C6: chunked iteration. -/

/-- With enough fuel and a positive chunk size, concatenating the chunks
restores the record list. -/
theorem chunkLoop_join (k : Nat) (hk : 0 < k) :
    ∀ fuel (l : List Record), l.length ≤ fuel → (chunkLoop fuel l k).flatten = l := by
  intro fuel
  induction fuel with
  | zero =>
    intro l hl
    cases l with
    | nil => rfl
    | cons a t => simp at hl
  | succ f ih =>
    intro l hl
    cases l with
    | nil => rfl
    | cons a t =>
      rw [chunkLoop, if_neg (by omega)]
      rw [List.flatten_cons, ih ((a :: t).drop k) (by simp only [List.length_drop, List.length_cons] at hl ⊢; omega), List.take_append_drop]

/-- With enough fuel and a positive chunk size, the number of chunks is the
ceiling of length over chunk size. -/
theorem chunkLoop_length (k : Nat) (hk : 0 < k) :
    ∀ fuel (l : List Record), l.length ≤ fuel →
      (chunkLoop fuel l k).length = (l.length + k - 1) / k := by
  intro fuel
  induction fuel with
  | zero =>
    intro l hl
    cases l with
    | nil => simp [chunkLoop, Nat.div_eq_of_lt (by omega : k - 1 < k)]
    | cons a t => simp at hl
  | succ f ih =>
    intro l hl
    cases l with
    | nil => simp [chunkLoop, Nat.div_eq_of_lt (by omega : k - 1 < k)]
    | cons a t =>
      rw [chunkLoop, if_neg (by omega)]
      rw [List.length_cons, ih ((a :: t).drop k) (by simp only [List.length_drop, List.length_cons] at hl ⊢; omega), List.length_drop]
      have hpos : 0 < (a :: t).length := by simp
      rcases le_or_lt (a :: t).length k with hle | hlt
      · have h1 : (a :: t).length - k = 0 := by omega
        rw [h1, Nat.div_eq_of_lt (by omega)]
        have h2 : (a :: t).length + k - 1 = ((a :: t).length - 1) + k := by omega
        rw [h2, Nat.add_div_right _ hk, Nat.div_eq_of_lt (by simp only [List.length_cons] at hle ⊢; omega)]
      · have h2 : (a :: t).length - k + k - 1 = ((a :: t).length - k - 1) + k := by omega
        have h3 : (a :: t).length + k - 1 = ((a :: t).length - 1) + k := by omega
        rw [h2, h3, Nat.add_div_right _ hk, Nat.add_div_right _ hk]
        have h4 : (a :: t).length - 1 = ((a :: t).length - k - 1) + k := by omega
        rw [h4, Nat.add_div_right _ hk]

/-- Every chunk is nonempty and no longer than the chunk size. -/
theorem chunkLoop_sizes (k : Nat) (hk : 0 < k) :
    ∀ fuel (l : List Record), l.length ≤ fuel →
      ∀ c ∈ chunkLoop fuel l k, 0 < c.length ∧ c.length ≤ k := by
  intro fuel
  induction fuel with
  | zero =>
    intro l hl c hc
    cases l with
    | nil => simp [chunkLoop] at hc
    | cons a t => simp at hl
  | succ f ih =>
    intro l hl c hc
    cases l with
    | nil => simp [chunkLoop] at hc
    | cons a t =>
      rw [chunkLoop, if_neg (by omega)] at hc
      rcases List.mem_cons.mp hc with h1 | h1
      · subst h1
        simp [List.length_take]
        omega
      · exact ih ((a :: t).drop k) (by simp only [List.length_drop, List.length_cons] at hl ⊢; omega) c h1

/-- Every chunk except the last has length exactly the chunk size. -/
theorem chunkLoop_dropLast (k : Nat) (hk : 0 < k) :
    ∀ fuel (l : List Record), l.length ≤ fuel →
      ∀ c ∈ (chunkLoop fuel l k).dropLast, c.length = k := by
  intro fuel
  induction fuel with
  | zero =>
    intro l hl c hc
    cases l with
    | nil => simp [chunkLoop] at hc
    | cons a t => simp at hl
  | succ f ih =>
    intro l hl c hc
    cases l with
    | nil => simp [chunkLoop] at hc
    | cons a t =>
      rw [chunkLoop, if_neg (by omega)] at hc
      by_cases hrest : chunkLoop f ((a :: t).drop k) k = []
      · rw [hrest] at hc
        simp at hc
      · rw [List.dropLast_cons_of_ne_nil hrest] at hc
        rcases List.mem_cons.mp hc with h1 | h1
        · subst h1
          have hd : (a :: t).drop k ≠ [] := by
            intro he
            rw [he] at hrest
            exact hrest (by cases f <;> rfl)
          have hklen : k < (a :: t).length := by
            have := List.length_pos.mpr hd
            simp only [List.length_drop] at this
            omega
          simp only [List.length_take, List.length_cons] at hklen ⊢
          omega
        · exact ih ((a :: t).drop k) (by simp only [List.length_drop, List.length_cons] at hl ⊢; omega) c h1

/-- Claim C6: for every book and positive chunk size `k`, chunked iteration
yields exactly `⌈n/k⌉` groups in the collection's iteration order — their
concatenation is exactly the record list, so every record is covered exactly
once — each group nonempty and of size at most `k`, and every group except
possibly the last of size exactly `k`. -/
theorem iterate_chunks_spec (b : AddressBook) (k : Nat) (hk : 0 < k) :
    (b.iterChunks k).flatten = b.records ∧
    (b.iterChunks k).length = (b.records.length + k - 1) / k ∧
    (∀ c ∈ b.iterChunks k, 0 < c.length ∧ c.length ≤ k) ∧
    (∀ c ∈ (b.iterChunks k).dropLast, c.length = k) :=
  ⟨chunkLoop_join k hk _ _ le_rfl, chunkLoop_length k hk _ _ le_rfl,
   chunkLoop_sizes k hk _ _ le_rfl, chunkLoop_dropLast k hk _ _ le_rfl⟩

/-- Witness for C6: chunk size 2 over the five-record book yields exactly
three groups of sizes two, two, one. -/
theorem iterate_chunks_spec_witness :
    (0 < 2) ∧
    ((book5.iterChunks 2).flatten = book5.records ∧
      (book5.iterChunks 2).length = (book5.records.length + 2 - 1) / 2 ∧
      (∀ c ∈ book5.iterChunks 2, 0 < c.length ∧ c.length ≤ 2) ∧
      (∀ c ∈ (book5.iterChunks 2).dropLast, c.length = 2)) ∧
    (book5.iterChunks 2).map List.length = [2, 2, 1] :=
  ⟨by decide, iterate_chunks_spec book5 2 (by decide), by decide⟩

/-!  Claim C9: persistence round trip. -/

/-- Decoding inverts encoding on phone lists. -/
theorem decodePhones_encode (ps : List String) :
    decodePhones (ps.map PVal.pstr) = some ps := by
  induction ps with
  | nil => rfl
  | cons p rest ih => simp [decodePhones, ih]

/-- Decoding inverts encoding on records. -/
theorem decodeRecord_encode (r : Record) :
    decodeRecord (encodeRecord r) = some r := by
  cases r with
  | mk n ps bd => cases bd <;> simp [encodeRecord, decodeRecord, decodePhones_encode]

/-- Decoding inverts encoding on the entry list. -/
theorem decodeEntryList_encode (l : List (String × Record)) :
    decodeEntryList (encodeEntries l) = some l := by
  induction l with
  | nil => rfl
  | cons kv rest ih =>
    have h1 : encodeEntries (kv :: rest)
        = PVal.plist [PVal.pstr kv.1, encodeRecord kv.2] :: encodeEntries rest := rfl
    rw [h1]
    simp only [decodeEntryList]
    rw [decodeRecord_encode, ih]

/-- Claim C9: saving a book to a file and loading that file into a fresh book
reproduces an equivalent mapping — the same names in the same order (hence
the same set of names), the same phone values per record in the same order,
and the same birthday values. -/
theorem save_load_roundtrip_spec (b fresh : AddressBook) :
    ∃ b2, fresh.load_from_file b.save_to_file = some b2 ∧
      b2.data = b.data ∧
      b2.data.map (fun kv => kv.1) = b.data.map (fun kv => kv.1) ∧
      b2.data.map (fun kv => kv.2.phones) = b.data.map (fun kv => kv.2.phones) ∧
      b2.data.map (fun kv => kv.2.birthday) = b.data.map (fun kv => kv.2.birthday) := by
  refine ⟨⟨b.data⟩, ?_, rfl, rfl, rfl, rfl⟩
  unfold AddressBook.load_from_file AddressBook.save_to_file
  simp [decodeEntryList_encode]

/-!  Claim C1: search. -/

/-- The phone loop of `search` appends the record exactly when some phone
contains the term, once. -/
theorem searchPhonesLoop_eq (value : String) (record : Record) (results : List Record)
    (l : List String) :
    searchPhonesLoop value record results l =
      results ++ (if l.any (fun ph => pyIn value ph) then [record] else []) := by
  induction l with
  | nil => simp [searchPhonesLoop]
  | cons ph rest ih =>
    by_cases hp : pyIn value ph
    · simp [searchPhonesLoop, hp]
    · simp [searchPhonesLoop, hp, ih]

/-- The search loop appends, per record in order, one copy for a name match
and one more for a phone match. -/
theorem searchLoop_eq (value : String) (results : List Record)
    (l : List (String × Record)) :
    searchLoop value results l =
      results ++ l.foldr (fun kv acc => recordHits value kv.2 ++ acc) [] := by
  induction l generalizing results with
  | nil => simp [searchLoop]
  | cons kv rest ih =>
    rw [searchLoop, searchPhonesLoop_eq, ih]
    unfold recordHits nameMatches phoneMatches
    by_cases hn : pyIn (pyLower value) (pyLower kv.2.name) <;>
      simp [hn, List.foldr_cons, List.append_assoc]

/-- Multiplicity of the appended copies, entrywise. -/
theorem search_count_aux (v : String) (r : Record) (l : List (String × Record)) :
    (l.foldr (fun kv acc => recordHits v kv.2 ++ acc) []).count r =
      ((l.map (fun kv => kv.2)).count r) *
        ((if nameMatches v r then 1 else 0) + (if phoneMatches v r then 1 else 0)) := by
  induction l with
  | nil => simp
  | cons kv rest ih =>
    rw [List.foldr_cons, List.map_cons, List.count_cons, List.count_append, ih]
    by_cases hr : kv.2 = r
    · rw [hr]
      unfold recordHits
      by_cases hn : nameMatches v r <;> by_cases hp : phoneMatches v r <;>
        simp [hn, hp, List.count_append, List.count_cons] <;> omega
    · have hb : (kv.2 == r) = false := by simp [hr]
      unfold recordHits
      by_cases hn : nameMatches v kv.2 <;> by_cases hp : phoneMatches v kv.2 <;>
        simp [hn, hp, List.count_append, List.count_cons, hb, hr]

/-- Claim C1, amended: `search` scans the records in the collection's
iteration order and, per stored record, appends one copy when the term is a
case-insensitive substring of the name and one further copy when the term is
a case-sensitive substring of at least one phone value (the inner loop breaks
at the first matching phone).  Consequently each stored occurrence of a
record contributes exactly (name-match) + (phone-match) copies: a record
matching only via phones — even via several phones — appears once, one
matching only via its name appears once, but one matching via its name AND
via a phone appears twice. -/
theorem search_spec (b : AddressBook) (v : String) (r : Record) :
    b.search v = b.data.foldr (fun kv acc => recordHits v kv.2 ++ acc) [] ∧
    (b.search v).count r =
      (b.records.count r) *
        ((if nameMatches v r then 1 else 0) + (if phoneMatches v r then 1 else 0)) := by
  have heq : b.search v = b.data.foldr (fun kv acc => recordHits v kv.2 ++ acc) [] := by
    unfold AddressBook.search
    rw [searchLoop_eq]
    rfl
  exact ⟨heq, by rw [heq]; exact search_count_aux v r b.data⟩

/-- Counterexample to C1 as stated: in a one-record book whose record matches
the term "123" both via its name (case-insensitively) and via its phone, the
record appears twice in the search result, not at most once. -/
theorem search_double_append_cex :
    AddressBook.search ⟨[("a123", rec123)]⟩ "123" = [rec123, rec123] ∧
    (AddressBook.search ⟨[("a123", rec123)]⟩ "123").count rec123 = 2 :=
  ⟨by decide, by decide⟩

/-!  Claim C4: Birthday validation. -/

/-- A list of length four is four explicit elements. -/
theorem length_eq_four {α : Type} {l : List α} (h : l.length = 4) :
    ∃ a b c d, l = [a, b, c, d] := by
  rcases l with _ | ⟨a, _ | ⟨b, _ | ⟨c, _ | ⟨d, _ | ⟨e, t⟩⟩⟩⟩⟩
  · simp at h
  · simp at h
  · simp at h
  · simp at h
  · exact ⟨a, b, c, d, rfl⟩
  · simp only [List.length_cons] at h
    omega

/-- A list of length one or two is one or two explicit elements. -/
theorem length_one_or_two {α : Type} {l : List α} (h : l.length = 1 ∨ l.length = 2) :
    (∃ a, l = [a]) ∨ ∃ a b, l = [a, b] := by
  rcases l with _ | ⟨a, _ | ⟨b, _ | ⟨c, t⟩⟩⟩
  · rcases h with h | h <;> simp at h
  · exact Or.inl ⟨a, rfl⟩
  · exact Or.inr ⟨a, b, rfl⟩
  · rcases h with h | h <;> (simp only [List.length_cons] at h; omega)

/-- Value of a four-digit string. -/
theorem digitsToNat_four (a b c d : Char) :
    digitsToNat [a, b, c, d]
      = 1000 * digitVal a + 100 * digitVal b + 10 * digitVal c + digitVal d := by
  simp [digitsToNat]
  ring

/-- A successful day parse: one or two digits whose value is the result. -/
theorem parseDay_some {cs : List Char} {d : Nat} (h : parseDay cs = some d) :
    (cs.length = 1 ∨ cs.length = 2) ∧ (∀ c ∈ cs, c.isDigit = true) ∧ digitsToNat cs = d := by
  rcases cs with _ | ⟨a, _ | ⟨b, _ | ⟨c, t⟩⟩⟩
  · simp [parseDay] at h
  · simp only [parseDay] at h
    split_ifs at h with hc
    · refine ⟨Or.inl rfl, ?_, ?_⟩
      · intro x hx
        simp at hx
        exact hx ▸ hc
      · simpa [digitsToNat] using Option.some.inj h
  · simp only [parseDay] at h
    split_ifs at h with hc
    · refine ⟨Or.inr rfl, ?_, ?_⟩
      · intro x hx
        simp at hx
        rcases hx with rfl | rfl
        · exact hc.1
        · exact hc.2
      · simpa [digitsToNat] using Option.some.inj h
  · simp [parseDay] at h

/-- Conversely, one or two digits parse as a day with their value. -/
theorem parseDay_of {cs : List Char} (h1 : cs.length = 1 ∨ cs.length = 2)
    (h2 : ∀ c ∈ cs, c.isDigit = true) :
    parseDay cs = some (digitsToNat cs) := by
  rcases cs with _ | ⟨a, _ | ⟨b, _ | ⟨c, t⟩⟩⟩
  · rcases h1 with h | h <;> simp at h
  · have := h2 a (by simp)
    simp [parseDay, this, digitsToNat]
  · have ha := h2 a (by simp)
    have hb := h2 b (by simp)
    simp [parseDay, ha, hb, digitsToNat]
  · rcases h1 with h | h <;> (simp only [List.length_cons] at h; omega)

/-- A successful month-day parse splits the input at the month's hyphen. -/
theorem parseMonthDay_some {cs : List Char} {m d : Nat}
    (h : parseMonthDay cs = some (m, d)) :
    ∃ ms ds, cs = ms ++ '-' :: ds ∧ (ms.length = 1 ∨ ms.length = 2) ∧
      (∀ c ∈ ms, c.isDigit = true) ∧ digitsToNat ms = m ∧ parseDay ds = some d := by
  rcases cs with _ | ⟨a, _ | ⟨b, _ | ⟨c, t⟩⟩⟩
  · simp [parseMonthDay] at h
  · simp [parseMonthDay] at h
  · simp [parseMonthDay] at h
  · simp only [parseMonthDay] at h
    split_ifs at h with hc1 hc2
    · obtain ⟨ha, hb, hc⟩ := hc1
      subst hc
      rcases hmap : parseDay t with _ | d0
      · rw [hmap] at h
        cases h
      · rw [hmap] at h
        simp only [Option.map_some'] at h
        obtain ⟨hm, hd⟩ := Prod.mk.injEq .. ▸ Option.some.inj h
        refine ⟨[a, b], t, by simp, Or.inr rfl, ?_, ?_, ?_⟩
        · intro x hx
          simp at hx
          rcases hx with rfl | rfl
          · exact ha
          · exact hb
        · rw [← hm]
          simp [digitsToNat]
        · rw [hmap, hd]
    · obtain ⟨ha, hb⟩ := hc2
      subst hb
      rcases hmap : parseDay (c :: t) with _ | d0
      · rw [hmap] at h
        cases h
      · rw [hmap] at h
        simp only [Option.map_some'] at h
        obtain ⟨hm, hd⟩ := Prod.mk.injEq .. ▸ Option.some.inj h
        refine ⟨[a], c :: t, by simp, Or.inl rfl, ?_, ?_, ?_⟩
        · intro x hx
          simp at hx
          exact hx ▸ ha
        · rw [← hm]
          simp [digitsToNat]
        · rw [hmap, hd]

/-- Conversely, digits-hyphen-day parses as a month and a day. -/
theorem parseMonthDay_of {ms ds : List Char} (hms : ms.length = 1 ∨ ms.length = 2)
    (hdig : ∀ c ∈ ms, c.isDigit = true) {d : Nat} (hd : parseDay ds = some d) :
    parseMonthDay (ms ++ '-' :: ds) = some (digitsToNat ms, d) := by
  rcases length_one_or_two hms with ⟨a, rfl⟩ | ⟨a, b, rfl⟩
  · have ha := hdig a (by simp)
    rcases ds with _ | ⟨e, ds2⟩
    · simp [parseDay] at hd
    · show parseMonthDay (a :: '-' :: e :: ds2) = _
      simp only [parseMonthDay]
      rw [if_neg (by intro hcc; simpa using hcc.2.1)]
      rw [if_pos ⟨ha, trivial⟩]
      rw [hd]
      simp [digitsToNat]
  · have ha := hdig a (by simp)
    have hb := hdig b (by simp)
    show parseMonthDay (a :: b :: '-' :: ds) = _
    simp only [parseMonthDay]
    rw [if_pos ⟨ha, hb, trivial⟩]
    rw [hd]
    simp [digitsToNat]

/-- A successful full parse means the string is a valid calendar-date string. -/
theorem parseYMD_some_valid {cs : List Char} {t : Nat × Nat × Nat}
    (h : parseYMD cs = some t) : ValidYMD cs := by
  obtain ⟨y, m, d⟩ := t
  rcases cs with _ | ⟨y1, _ | ⟨y2, _ | ⟨y3, _ | ⟨y4, _ | ⟨h5, rest⟩⟩⟩⟩⟩
  · simp [parseYMD] at h
  · simp [parseYMD] at h
  · simp [parseYMD] at h
  · simp [parseYMD] at h
  · simp [parseYMD] at h
  · simp only [parseYMD] at h
    split_ifs at h with hc
    · obtain ⟨hd1, hd2, hd3, hd4, hdash⟩ := hc
      subst hdash
      rcases hmd : parseMonthDay rest with _ | ⟨m0, d0⟩
      · rw [hmd] at h
        cases h
      · simp only [hmd] at h
        split_ifs at h with hcond
        · obtain ⟨hye, hme, hde⟩ := Prod.mk.injEq .. ▸ Option.some.inj h
          obtain ⟨hy1, hm1, hm12, hd0, hdok⟩ := hcond
          obtain ⟨ms, ds, hrest, hmslen, hmsdig, hmsval, hpd⟩ := parseMonthDay_some hmd
          obtain ⟨hdslen, hdsdig, hdsval⟩ := parseDay_some hpd
          refine ⟨[y1, y2, y3, y4], ms, ds, ?_, rfl, ?_, hmslen, hmsdig, hdslen, hdsdig,
            ?_, ?_, ?_, ?_, ?_⟩
          · rw [hrest]
            rfl
          · intro x hx
            simp at hx
            rcases hx with rfl | rfl | rfl | rfl
            · exact hd1
            · exact hd2
            · exact hd3
            · exact hd4
          · rw [digitsToNat_four]
            exact hy1
          · rw [hmsval]
            exact hm1
          · rw [hmsval]
            exact hm12
          · rw [hdsval]
            exact hd0
          · rw [hdsval, hmsval, digitsToNat_four]
            exact hdok

/-- Conversely, every valid calendar-date string parses. -/
theorem valid_parseYMD {cs : List Char} (h : ValidYMD cs) :
    ∃ t, parseYMD cs = some t := by
  obtain ⟨ys, ms, ds, hcs, hylen, hydig, hmslen, hmsdig, hdslen, hdsdig,
    hy1, hm1, hm12, hd1, hdm⟩ := h
  obtain ⟨y1, y2, y3, y4, rfl⟩ := length_eq_four hylen
  subst hcs
  refine ⟨(digitsToNat [y1, y2, y3, y4], digitsToNat ms, digitsToNat ds), ?_⟩
  show parseYMD (y1 :: y2 :: y3 :: y4 :: '-' :: (ms ++ '-' :: ds)) = _
  simp only [parseYMD]
  rw [if_pos ⟨hydig y1 (by simp), hydig y2 (by simp), hydig y3 (by simp),
    hydig y4 (by simp), trivial⟩]
  simp only [parseMonthDay_of hmslen hmsdig (parseDay_of hdslen hdsdig)]
  rw [if_pos ?side]
  case side =>
    rw [← digitsToNat_four y1 y2 y3 y4]
    exact ⟨hy1, hm1, hm12, hd1, hdm⟩
  rw [digitsToNat_four]

/-- Claim C4, amended: constructing a `Birthday` with `v` and reassigning an
existing `Birthday` to `v` both succeed iff `v` parses under
`strptime %Y-%m-%d`: exactly four digits of year (at least 0001), a hyphen, a
one- or two-digit month 1–12, a hyphen, and a one- or two-digit day valid for
that month and year — zero-padding of month and day is NOT required.  When
`v` does not parse, construction fails with a `ValueError` whose message is
"Incorrect data format, should be YYYY-MM-DD" (sic: "data"), while
reassignment fails with "Incorrect date format, should be YYYY-MM-DD". -/
theorem birthday_validation_spec (v w : String) :
    (Birthday.mk? v = .ok v ↔ ValidYMD v.data) ∧
    (¬ ValidYMD v.data → Birthday.mk? v = .error (.valueError ctorDateMsg)) ∧
    (Birthday.set_value w v = .ok v ↔ ValidYMD v.data) ∧
    (¬ ValidYMD v.data → Birthday.set_value w v = .error (.valueError setterDateMsg)) := by
  rcases hp : parseYMD v.data with _ | t
  · have hnv : ¬ ValidYMD v.data := by
      intro hv
      obtain ⟨t, ht⟩ := valid_parseYMD hv
      rw [hp] at ht
      cases ht
    have h1 : Birthday.mk? v = .error (.valueError ctorDateMsg) := by
      unfold Birthday.mk?
      rw [hp]
    have h2 : Birthday.set_value w v = .error (.valueError setterDateMsg) := by
      unfold Birthday.set_value
      rw [hp]
    refine ⟨?_, fun _ => h1, ?_, fun _ => h2⟩
    · rw [h1]
      simp [hnv]
    · rw [h2]
      simp [hnv]
  · have hv : ValidYMD v.data := parseYMD_some_valid hp
    have h1 : Birthday.mk? v = .ok v := by
      unfold Birthday.mk?
      rw [hp]
    have h2 : Birthday.set_value w v = .ok v := by
      unfold Birthday.set_value
      rw [hp]
    exact ⟨by rw [h1]; simp [hv], fun hn => absurd hv hn,
      by rw [h2]; simp [hv], fun hn => absurd hv hn⟩

/-- Witness for C4 at concrete inputs: a valid padded date is accepted; an
invalid month is rejected by the constructor with the "data" message; an
unparseable value is rejected by the setter with the "date" message. -/
theorem birthday_validation_spec_witness :
    Birthday.mk? "1990-06-15" = .ok "1990-06-15" ∧
    Birthday.mk? "1990-13-05" = .error (.valueError ctorDateMsg) ∧
    Birthday.set_value "1990-06-15" "1990-06-15x" = .error (.valueError setterDateMsg) := by
  have hval : ValidYMD ("1990-06-15".data) :=
    ⟨"1990".data, "06".data, "15".data, by decide⟩
  have hnv1 : ¬ ValidYMD ("1990-13-05".data) := by
    intro hv
    obtain ⟨t, ht⟩ := valid_parseYMD hv
    rw [show parseYMD ("1990-13-05".data) = none from rfl] at ht
    cases ht
  have hnv2 : ¬ ValidYMD ("1990-06-15x".data) := by
    intro hv
    obtain ⟨t, ht⟩ := valid_parseYMD hv
    rw [show parseYMD ("1990-06-15x".data) = none from rfl] at ht
    cases ht
  exact ⟨(birthday_validation_spec "1990-06-15" "").1.mpr hval,
    (birthday_validation_spec "1990-13-05" "").2.1 hnv1,
    (birthday_validation_spec "1990-06-15x" "1990-06-15").2.2.2 hnv2⟩

/-- Counterexample to C4 as stated: the unpadded string "2020-1-1" does not
match the exact pattern YYYY-MM-DD yet construction succeeds (strptime
accepts unpadded month and day); and a failing construction carries the
message "Incorrect data format, should be YYYY-MM-DD", not the claimed
"Incorrect date format, should be YYYY-MM-DD". -/
theorem birthday_format_cex :
    Birthday.mk? "2020-1-1" = .ok "2020-1-1" ∧
    Birthday.mk? "2020-99-99" = .error (.valueError ctorDateMsg) ∧
    ctorDateMsg ≠ "Incorrect date format, should be YYYY-MM-DD" :=
  ⟨by decide, by decide, by decide⟩

/-!  Claim C5: days to birthday. -/

/-- The leap test, unfolded to arithmetic. -/
theorem isLeap_iff (y : Nat) : isLeap y = true ↔ (y % 4 = 0 ∧ (y % 100 ≠ 0 ∨ y % 400 = 0)) := by
  simp [isLeap]

/-- A year and its successor are never both leap years. -/
theorem succ_not_both_leap (y : Nat) : ¬ (isLeap y = true ∧ isLeap (y + 1) = true) := by
  rw [isLeap_iff, isLeap_iff]
  omega

/-- The days before a year grow by 365 plus the leap bit of the year. -/
theorem daysBeforeYear_succ (y : Nat) (hy : 1 ≤ y) :
    daysBeforeYear (y + 1) = daysBeforeYear y + 365 + leapBit y := by
  have hiff := isLeap_iff y
  unfold daysBeforeYear leapBit
  cases hb : isLeap y with
  | false =>
    rw [hb] at hiff
    simp only [Bool.false_eq_true, false_iff] at hiff
    have h0 : (if (false = true) then (1 : Nat) else 0) = 0 := rfl
    rw [h0]
    omega
  | true =>
    rw [hb] at hiff
    simp only [true_iff] at hiff
    have h0 : (if (true = true) then (1 : Nat) else 0) = 1 := rfl
    rw [h0]
    omega

/-- Monotone accumulation of the month table. -/
theorem daysBeforeMonth_mono (leap : Bool) :
    ∀ mm, mm < 13 → ∀ m, m < mm → 1 ≤ m →
      daysBeforeMonth leap m + daysInMonthB leap m ≤ daysBeforeMonth leap mm := by
  cases leap <;> decide

/-- The month table plus a final month stays within the year length. -/
theorem daysBeforeMonth_last (leap : Bool) :
    ∀ m, m < 13 → 1 ≤ m →
      daysBeforeMonth leap m + daysInMonthB leap m ≤ 365 + (if leap then 1 else 0) := by
  cases leap <;> decide

/-- Within one month slot, switching the leap setting (between two years that
are not both leap) costs at most the one day of slack. -/
theorem daysBeforeMonth_sameMonth (l1 l2 : Bool) :
    ∀ m, m < 13 → ¬ (l1 = true ∧ l2 = true) →
      daysBeforeMonth l2 m + (if l1 then 1 else 0) ≤ daysBeforeMonth l1 m + 1 := by
  cases l1 <;> cases l2 <;> decide

/-- Crossing a year boundary: a full earlier month of the new year, plus the
old year's leap bit, fits before a later month of the old year (with one day
of slack), whenever the two years are not both leap. -/
theorem daysBeforeMonth_crossYear (l1 l2 : Bool) :
    ∀ tm, tm < 13 → ∀ bm, bm < tm → 1 ≤ bm → ¬ (l1 = true ∧ l2 = true) →
      daysBeforeMonth l2 bm + daysInMonthB l2 bm + (if l1 then 1 else 0)
        ≤ daysBeforeMonth l1 tm + 1 := by
  cases l1 <;> cases l2 <;> decide

/-- Strict monotonicity of the day of year in (month, day), within one year. -/
theorem dayOfYear_lt (leap : Bool) {m d mm dd : Nat}
    (hm1 : 1 ≤ m) (_hm2 : m ≤ 12) (hmm2 : mm ≤ 12)
    (hd2 : d ≤ daysInMonthB leap m) (hdd1 : 1 ≤ dd)
    (hlt : m < mm ∨ (m = mm ∧ d < dd)) :
    daysBeforeMonth leap m + d < daysBeforeMonth leap mm + dd := by
  rcases hlt with h | ⟨he, h⟩
  · have := daysBeforeMonth_mono leap mm (by omega) m h hm1
    omega
  · subst he
    omega

/-- The day of year is at most the year length. -/
theorem dayOfYear_le (leap : Bool) {m d : Nat} (hm1 : 1 ≤ m) (hm2 : m ≤ 12)
    (hd2 : d ≤ daysInMonthB leap m) :
    daysBeforeMonth leap m + d ≤ 365 + (if leap then 1 else 0) := by
  have := daysBeforeMonth_last leap m (by omega) hm1
  omega

/-- Month and day bounds guaranteed by a successful parse. -/
theorem parseYMD_bounds {cs : List Char} {y m d : Nat}
    (h : parseYMD cs = some (y, m, d)) : 1 ≤ m ∧ m ≤ 12 ∧ 1 ≤ d := by
  rcases cs with _ | ⟨y1, _ | ⟨y2, _ | ⟨y3, _ | ⟨y4, _ | ⟨h5, rest⟩⟩⟩⟩⟩
  · simp [parseYMD] at h
  · simp [parseYMD] at h
  · simp [parseYMD] at h
  · simp [parseYMD] at h
  · simp [parseYMD] at h
  · simp only [parseYMD] at h
    split_ifs at h with hc
    · rcases hmd : parseMonthDay rest with _ | ⟨m0, d0⟩
      · rw [hmd] at h
        cases h
      · simp only [hmd] at h
        split_ifs at h with hcond
        · simp only [Option.some.injEq, Prod.mk.injEq] at h
          obtain ⟨hye, hme, hde⟩ := h
          subst hme
          subst hde
          exact ⟨hcond.2.1, hcond.2.2.1, hcond.2.2.2.1⟩

/-- Claim C5, amended: for every record and every valid current date,
`days_to_birthday` returns `None` when no birthday is set.  Otherwise, with
the target year being this year — or next year when today's (month, day) is
strictly past the birthday's, equality counting as not past — and PROVIDED
the birthday's day exists in the target year's month (which fails exactly for
a February 29 birthday whose target year is not a leap year) and the target
year is at most 9999, it returns the ordinal-date difference from today to
the birthday's (month, day) in the target year: 0 when today's (month, day)
equals the birthday's, and otherwise a positive integer strictly less than
366.  When the proviso fails, the call raises a `ValueError` instead of
returning. -/
theorem days_to_birthday_spec (r : Record) (b : String) (ty tm td y0 bm bd : Nat)
    (hb : r.birthday = some b)
    (hparse : parseYMD b.data = some (y0, bm, bd))
    (hty : 1 ≤ ty)
    (htm1 : 1 ≤ tm) (htm2 : tm ≤ 12)
    (htd1 : 1 ≤ td) (htd2 : td ≤ daysInMonth ty tm)
    (hbd : bd ≤ daysInMonth (nextBirthdayYear ty tm td bm bd) bm)
    (hyr : nextBirthdayYear ty tm td bm bd ≤ 9999) :
    (∀ r2 : Record, r2.birthday = none → r2.days_to_birthday ty tm td = .ok none) ∧
    ∃ k : Int,
      r.days_to_birthday ty tm td = .ok (some k) ∧
      k = (dateToOrdinal (nextBirthdayYear ty tm td bm bd) bm bd : Int)
          - (dateToOrdinal ty tm td : Int) ∧
      ((bm = tm ∧ bd = td) → k = 0) ∧
      (¬ (bm = tm ∧ bd = td) → 0 < k ∧ k < 366) := by
  obtain ⟨hbm1, hbm2, hbd1⟩ := parseYMD_bounds hparse
  constructor
  · intro r2 h2
    unfold Record.days_to_birthday
    rw [h2]
  refine ⟨_, ?_, rfl, ?_, ?_⟩
  · simp only [Record.days_to_birthday, hb, hparse]
    rw [if_neg (by omega : ¬ 9999 < nextBirthdayYear ty tm td bm bd),
      if_neg (by omega : ¬ daysInMonth (nextBirthdayYear ty tm td bm bd) bm < bd)]
  · rintro ⟨he1, he2⟩
    have hny : nextBirthdayYear ty tm td bm bd = ty := by
      unfold nextBirthdayYear
      rw [if_neg (by omega)]
    rw [hny, he1, he2]
    omega
  · intro hne
    by_cases hpass : bm < tm ∨ (bm = tm ∧ bd < td)
    · have hny : nextBirthdayYear ty tm td bm bd = ty + 1 := by
        unfold nextBirthdayYear
        rw [if_pos hpass]
      rw [hny] at hbd ⊢
      have hxord : dateToOrdinal (ty + 1) bm bd
          = daysBeforeYear ty + 365 + leapBit ty + daysBeforeMonth (isLeap (ty + 1)) bm + bd := by
        unfold dateToOrdinal
        rw [daysBeforeYear_succ ty hty]
      have hord_t : dateToOrdinal ty tm td
          = daysBeforeYear ty + daysBeforeMonth (isLeap ty) tm + td := rfl
      have htdim : td ≤ daysInMonthB (isLeap ty) tm := htd2
      have hbdim : bd ≤ daysInMonthB (isLeap (ty + 1)) bm := hbd
      have hbit : leapBit ty = if isLeap ty then 1 else 0 := rfl
      have hnb := succ_not_both_leap ty
      have hup : daysBeforeMonth (isLeap (ty + 1)) bm + bd + leapBit ty
          ≤ daysBeforeMonth (isLeap ty) tm + td := by
        rcases hpass with hlt | ⟨heq, hdlt⟩
        · have hcross := daysBeforeMonth_crossYear (isLeap ty) (isLeap (ty + 1)) tm
            (by omega) bm hlt hbm1 hnb
          omega
        · subst heq
          have hsm := daysBeforeMonth_sameMonth (isLeap ty) (isLeap (ty + 1)) bm
            (by omega) hnb
          omega
      have hle := dayOfYear_le (isLeap ty) htm1 htm2 htdim
      constructor
      · have hlt2 : dateToOrdinal ty tm td < dateToOrdinal (ty + 1) bm bd := by
          rw [hord_t, hxord]
          omega
        omega
      · have hle2 : dateToOrdinal (ty + 1) bm bd ≤ dateToOrdinal ty tm td + 365 := by
          rw [hord_t, hxord]
          omega
        omega
    · have hny : nextBirthdayYear ty tm td bm bd = ty := by
        unfold nextBirthdayYear
        rw [if_neg hpass]
      rw [hny] at hbd ⊢
      have horder : tm < bm ∨ (tm = bm ∧ td < bd) := by
        rcases Nat.lt_trichotomy bm tm with h | h | h
        · exact absurd (Or.inl h) hpass
        · subst h
          rcases Nat.lt_trichotomy bd td with h2 | h2 | h2
          · exact absurd (Or.inr ⟨rfl, h2⟩) hpass
          · exact absurd ⟨rfl, h2⟩ hne
          · exact Or.inr ⟨rfl, h2⟩
        · exact Or.inl h
      have htd2b : td ≤ daysInMonthB (isLeap ty) tm := htd2
      have hbd2b : bd ≤ daysInMonthB (isLeap ty) bm := hbd
      have hmono := dayOfYear_lt (isLeap ty) htm1 htm2 hbm2 htd2b hbd1 horder
      have hle2 := dayOfYear_le (isLeap ty) hbm1 hbm2 hbd2b
      have hbitle : (if isLeap ty then (1 : Nat) else 0) ≤ 1 := by
        cases isLeap ty <;> simp
      have hord_t : dateToOrdinal ty tm td
          = daysBeforeYear ty + daysBeforeMonth (isLeap ty) tm + td := rfl
      have hord_b : dateToOrdinal ty bm bd
          = daysBeforeYear ty + daysBeforeMonth (isLeap ty) bm + bd := rfl
      constructor
      · have hlt2 : dateToOrdinal ty tm td < dateToOrdinal ty bm bd := by
          rw [hord_t, hord_b]
          omega
        omega
      · have hle3 : dateToOrdinal ty bm bd ≤ dateToOrdinal ty tm td + 365 := by
          rw [hord_t, hord_b]
          omega
        omega

/-- Witness for C5 at a concrete record and date: birthday June 15, today
2026-10-12 — the birthday has passed, so the target is 2027 and the count is
positive and below 366. -/
theorem days_to_birthday_spec_witness :
    (∀ r2 : Record, r2.birthday = none → r2.days_to_birthday 2026 10 12 = .ok none) ∧
    ∃ k : Int,
      Record.days_to_birthday ⟨"A", [], some "1990-06-15"⟩ 2026 10 12 = .ok (some k) ∧
      k = (dateToOrdinal (nextBirthdayYear 2026 10 12 6 15) 6 15 : Int)
          - (dateToOrdinal 2026 10 12 : Int) ∧
      ((6 = 10 ∧ 15 = 12) → k = 0) ∧
      (¬ (6 = 10 ∧ 15 = 12) → 0 < k ∧ k < 366) :=
  days_to_birthday_spec ⟨"A", [], some "1990-06-15"⟩ "1990-06-15" 2026 10 12 1990 6 15
    rfl (by decide) (by decide) (by decide) (by decide) (by decide) (by decide)
    (by decide) (by decide)

/-- Counterexample to C5 as stated: a record with the valid birthday
2024-02-29 and the current date 2025-01-15 — the birthday is set, yet the
call raises `ValueError` ("day is out of range for month", from
`date.replace` with the non-leap target year 2025) instead of returning a
day count. -/
theorem days_to_birthday_feb29_cex :
    parseYMD "2024-02-29".data = some (2024, 2, 29) ∧
    Record.days_to_birthday ⟨"A", [], some "2024-02-29"⟩ 2025 1 15
      = .error (.valueError "day is out of range for month") :=
  ⟨by decide, by decide⟩
